import Mathlib

/-!
Verification of the Docling CLI conversion core.

This file is a shallow embedding, in Lean, of the conversion-orchestration
core of the Docling CLI plugin:

* `docling/frontend/cli/config.py` — extension map, document-type
  classification (`CLIConfig.detect_document_type`, `CLIConfig.is_supported_file`);
* `docling/frontend/cli/utils/file_handler.py` — input validation
  (`validate_input_file`), directory discovery (`find_files_in_directory`),
  output-path resolution (`create_output_path`);
* `docling/frontend/cli/commands/convert.py` and `commands/batch.py` —
  the per-file pipeline (validate / classify / resolve / convert /
  post-process / save) and the batch loop with its continue-on-error policy.

Filesystem facts (existence, file kind, size, directory listings), the
backend converters and the Markdown post-processor are external
collaborators of that code; they enter the embedding as explicit oracle
parameters (functions and records), while every piece of control flow is
translated from the Python source.
-/

namespace DoclingCLI

/-! ### Path helpers

Models of the `pathlib.Path` accessors used by the source: `Path(p).name`
(`lastNameChars`), `Path(p).suffix` (`nameSuffixChars` / `pathSuffix`),
`Path(p).stem` (`pathStem`) and `os.path.dirname` (`dirname`).
Strings are handled through their character lists. -/

/-- Does a final path component start with a dot?  (`glob` treats such
names as hidden and its wildcards do not match them.) -/
def isHidden (name : List Char) : Bool :=
  match name with
  | '.' :: _ => true
  | _ => false

/-- `Path(p).name`: the final path component, with trailing slashes
stripped (so `a/b` and `a/b/` both have name `b`). -/
def lastNameChars (p : List Char) : List Char :=
  ((p.reverse.dropWhile (fun c => c = '/')).takeWhile (fun c => c ≠ '/')).reverse

/-- `Path`'s suffix rule on a (final) name: the part from the last dot on,
provided that dot is neither the first nor the last character of the name
(`.bashrc`, `file.` and dot-free names have an empty suffix). -/
def nameSuffixChars (name : List Char) : List Char :=
  if name.reverse.indexOf '.' = 0 ∨ name.length ≤ name.reverse.indexOf '.' + 1 then []
  else (name.reverse.take (name.reverse.indexOf '.' + 1)).reverse

/-- `Path(p).suffix`. -/
def pathSuffix (p : String) : String :=
  String.mk (nameSuffixChars (lastNameChars p.data))

/-- `Path(p).stem`: the final component without its suffix. -/
def pathStem (p : String) : String :=
  let name := lastNameChars p.data
  String.mk (name.take (name.length - (nameSuffixChars name).length))

/-- `os.path.dirname`: everything before the last slash (empty if none). -/
def dirname (p : String) : String :=
  String.mk ((p.data.reverse.dropWhile (fun c => c ≠ '/')).drop 1).reverse

/-- Python's `str.lower()`, character by character (the extensions under
comparison are ASCII, where `Char.toLower` and `str.lower` agree). -/
def strLower (s : String) : String :=
  String.mk (s.data.map Char.toLower)

/-! ### `CLIConfig` (config.py) -/

namespace CLIConfig

/-- `SUPPORTED_EXTENSIONS['excel']`. -/
def excelExtensions : List String := [".xlsx", ".xls"]

/-- `SUPPORTED_EXTENSIONS['word']`. -/
def wordExtensions : List String := [".docx", ".doc"]

/-- `SUPPORTED_EXTENSIONS['powerpoint']`. -/
def powerpointExtensions : List String := [".pptx", ".ppt"]

/-- `CLIConfig.get_all_supported_extensions`: the flat list of all
supported extensions, in the dict's insertion order. -/
def get_all_supported_extensions : List String :=
  excelExtensions ++ wordExtensions ++ powerpointExtensions

/-- `CLIConfig.MAX_FILE_SIZE_MB`. -/
def MAX_FILE_SIZE_MB : Nat := 100

/-- `CLIConfig.detect_document_type`: lower-case the file's suffix and
return the first document type whose extension list contains it
(dict iteration order: excel, word, powerpoint), else `"unknown"`. -/
def detect_document_type (file_path : String) : String :=
  if strLower (pathSuffix file_path) ∈ excelExtensions then "excel"
  else if strLower (pathSuffix file_path) ∈ wordExtensions then "word"
  else if strLower (pathSuffix file_path) ∈ powerpointExtensions then "powerpoint"
  else "unknown"

/-- `CLIConfig.is_supported_file`: membership of the lower-cased suffix in
the flat extension list. -/
def is_supported_file (file_path : String) : Bool :=
  decide (strLower (pathSuffix file_path) ∈ get_all_supported_extensions)

end CLIConfig

/-! ### Input validation (file_handler.py, `validate_input_file`)

The `os.stat` facts about the input file are supplied as an oracle
record.  Python computes `size_bytes / (1024 * 1024) > MAX_FILE_SIZE_MB`
in binary floating point; division by the power of two `1024 * 1024` is
exact, so the comparison is equivalent to the integer comparison
`size_bytes > MAX_FILE_SIZE_MB * 1024 * 1024` used here. -/

/-- Filesystem facts about one path, as seen by `validate_input_file`. -/
structure FileStat where
  pathExists : Bool
  isFile : Bool
  sizeBytes : Nat
deriving DecidableEq

/-- `FileHandler.validate_input_file`, returning `(is_valid, error_message)`.
The "File too large" message interpolates a formatted float in Python; the
numeric text is elided here. -/
def validate_input_file (st : FileStat) (file_path : String) : Bool × String :=
  if st.pathExists = false then (false, "File not found: " ++ file_path)
  else if st.isFile = false then (false, "Path is not a file: " ++ file_path)
  else if CLIConfig.MAX_FILE_SIZE_MB * 1024 * 1024 < st.sizeBytes then
    (false, "File too large")
  else if CLIConfig.is_supported_file file_path = false then
    (false, "Unsupported file type. Supported: " ++
      String.intercalate ", " CLIConfig.get_all_supported_extensions)
  else (true, "")

/-! ### Directory discovery (file_handler.py, `find_files_in_directory`)

The directory under scan is supplied as an oracle: a flag for
`search_path.exists() and search_path.is_dir()` and the list of entries
beneath it, each entry given by its path components relative to the
directory plus whether it is a regular file.  The Python code collects
`glob.glob(str(search_path / "*" + ext))` (or `".../**/*" + ext` with
`recursive=True`) for every supported extension and returns the sorted
union.  `glob` matching semantics embedded here:

* a wildcard pattern component does not match names that start with a dot
  (hidden entries), and recursive `**` likewise does not descend into
  hidden directories;
* `*ext` matches any entry — file or directory — whose name ends with the
  literal characters of `ext` (case-sensitively);
* `**` matches zero or more directory levels.

Python's `sorted` on strings is lexicographic on code points; it is
modeled by `List.insertionSort` over `charListLe`. -/

/-- One entry beneath the scanned directory: its relative path components
(last component = its name) and whether it is a regular file. -/
structure FSEntry where
  parts : List String
  isFile : Bool
deriving DecidableEq

/-- The scanned directory as `find_files_in_directory` observes it. -/
structure DirectoryListing where
  dirOk : Bool
  entries : List FSEntry
deriving DecidableEq

/-- Lexicographic comparison of character lists by code point — the order
Python's `sorted` uses on strings. -/
def charListLe : List Char → List Char → Bool
  | [], _ => true
  | _ :: _, [] => false
  | a :: as, b :: bs =>
    if a.toNat < b.toNat then true
    else if b.toNat < a.toNat then false
    else charListLe as bs

/-- The string order used by the model of `sorted`. -/
def stringLe (a b : String) : Prop := charListLe a.data b.data = true

instance : DecidableRel stringLe := fun a b => by
  unfold stringLe; infer_instance

/-- Does entry `e` match the glob pattern for extension `ext`
(`*ext` at the top level, or `**/*ext` when `recursive`)? -/
def globMatch (recursive : Bool) (ext : String) (e : FSEntry) : Bool :=
  match e.parts.reverse with
  | [] => false
  | name :: revDirs =>
    ext.data.isSuffixOf name.data && !(isHidden name.data) &&
      (if recursive then revDirs.all (fun d => !(isHidden d.data)) else revDirs.isEmpty)

/-- Join relative path components with slashes, as in the strings
`glob.glob` returns. -/
def joinParts : List String → String
  | [] => ""
  | [part] => part
  | part :: rest => part ++ "/" ++ joinParts rest

/-- The full path `glob` reports for entry `e` under `directory`. -/
def fullPath (directory : String) (e : FSEntry) : String :=
  directory ++ "/" ++ joinParts e.parts

/-- `FileHandler.find_files_in_directory`: empty when the directory is
missing or not a directory; otherwise the glob matches of every supported
extension, as full paths, sorted. -/
def find_files_in_directory (listing : DirectoryListing) (directory : String)
    (recursive : Bool) : List String :=
  if listing.dirOk = false then []
  else
    List.insertionSort stringLe
      ((CLIConfig.get_all_supported_extensions.map
        (fun ext => (listing.entries.filter (fun e => globMatch recursive ext e)).map
          (fullPath directory))).flatten)

/-! ### Output-path resolution (file_handler.py, `create_output_path`)

The output directory's contents are an oracle `pathExists`.  The Python
`while output_file.exists()` loop has no syntactic bound; on an actual
(finite) filesystem it terminates as soon as a candidate name is free.
The embedding makes the search bounded by an explicit `fuel` argument;
the theorems assume a free candidate exists within `fuel` steps, which on
a finite filesystem is guaranteed for any sufficiently large `fuel`. -/

/-- The extension chosen for an output format (`.md` / `.html` / `.json`,
anything else `.txt`). -/
def formatExtension (output_format : String) : String :=
  if output_format = "markdown" then ".md"
  else if output_format = "html" then ".html"
  else if output_format = "json" then ".json"
  else ".txt"

/-- The candidate path tried at loop counter `n`: `dir/base.ext` for
`n = 0`, and `dir/base_n.ext` afterwards. -/
def outputCandidate (output_dir base_name ext : String) (n : Nat) : String :=
  if n = 0 then output_dir ++ "/" ++ base_name ++ ext
  else output_dir ++ "/" ++ base_name ++ "_" ++ toString n ++ ext

/-- The `while output_file.exists()` loop: starting at counter `n`, return
the first candidate that does not exist, giving up after `fuel` occupied
candidates. -/
def findFreeName (pathExists : String → Bool) (output_dir base_name ext : String) :
    Nat → Nat → String
  | 0, n => outputCandidate output_dir base_name ext n
  | fuel + 1, n =>
    if pathExists (outputCandidate output_dir base_name ext n) then
      findFreeName pathExists output_dir base_name ext fuel (n + 1)
    else outputCandidate output_dir base_name ext n

/-- `FileHandler.create_output_path` (the `mkdir(parents=True,
exist_ok=True)` side effect has no bearing on the returned path). -/
def create_output_path (pathExists : String → Bool) (fuel : Nat)
    (input_file output_dir output_format : String) : String :=
  findFreeName pathExists output_dir (pathStem input_file)
    (formatExtension output_format) fuel 0

/-- `N` successive `create_output_path` calls for the same input, each
prior result being materialized (created on disk) before the next call:
the list of the `N` returned paths. -/
def materializeCalls (pathExists : String → Bool) (fuel : Nat)
    (input_file output_dir output_format : String) : Nat → List String
  | 0 => []
  | N + 1 =>
    materializeCalls pathExists fuel input_file output_dir output_format N
      ++ [create_output_path
            (fun p => pathExists p ||
              (materializeCalls pathExists fuel input_file output_dir output_format N).contains p)
            fuel input_file output_dir output_format]

/-! ### Markdown post-processing (convert.py 123–138, batch.py 150–161)

The `MarkdownPostProcessor` collaborator is a record of abstract
string transforms.  The flag routing — an `if/elif/elif` chain over the
three image options followed by an independent `if` for the math
transform, all guarded by `any([...])` — is translated verbatim. -/

/-- The `MarkdownPostProcessor` collaborator's four transforms.  The two
image transforms that need the source file's directory take it as their
second argument. -/
structure PostProcessor where
  remove_images : String → String
  encode_images_base64 : String → String → String
  ocr_images : String → String → String
  convert_plain_math_to_latex : String → String

/-- The post-processing block applied to converted Markdown `content`:
skipped entirely unless some option is set; otherwise the first selected
image option (priority: remove, base64, OCR) is applied, then the math
transform if selected. -/
def applyPostProcessing (proc : PostProcessor)
    (remove_images encode_images_base64 ocr_images convert_math_to_latex : Bool)
    (base_path content : String) : String :=
  if remove_images || encode_images_base64 || ocr_images || convert_math_to_latex then
    let c :=
      if remove_images then proc.remove_images content
      else if encode_images_base64 then proc.encode_images_base64 content base_path
      else if ocr_images then proc.ocr_images content base_path
      else content
    if convert_math_to_latex then proc.convert_plain_math_to_latex c else c
  else content

/-! ### Converters and the per-file pipeline (batch.py 125–213)

A converter is a record of conversion methods; `convert_to_json` is
optional, mirroring the `hasattr(converter, 'convert_to_json')` capability
check.  Each method may fail (`Except`), modeling a raised exception
carrying the error text.

`processOneFile` is the body of the batch loop (convert.py's `convert`
command performs the same steps in the same order for a single file,
with `sys.exit(1)` in place of the failure record).  The pipeline returns
the `ConversionResult` record appended to `results`, paired with a flag
reporting whether `create_output_path` was invoked — i.e. whether an
output path was resolved (and the output directory created) for this
file.  The `processing_time` field of the Python record is wall-clock
time and is not modeled. -/

/-- A backend converter's capability record. -/
structure Converter where
  convert_to_md : String → Except String String
  convert_to_html : String → Except String String
  convert_to_json : Option (String → Except String String)

/-- One per-file outcome record (`results.append({...})` in batch.py). -/
structure ConversionResult where
  input_file : String
  output_file : String
  success : Bool
  error : Option String
deriving DecidableEq

/-- The collaborators and filesystem oracles the pipeline consults. -/
structure PipelineEnv where
  stat : FileStat
  converters : String → Option Converter
  proc : PostProcessor
  outputPathExists : String → Bool
  fuel : Nat
  saveOk : String → String → Bool

/-- The batch-loop body for one file: validate, classify, look up the
converter, resolve the output path, convert (with post-processing for
Markdown), save.  Any failure is caught and recorded.  The second
component reports whether `create_output_path` ran.  The final `else`
branch models the `NameError` a format outside the three choices would
raise (unreachable through the CLI, whose `--format` is restricted). -/
def processOneFile (env : PipelineEnv) (output_dir output_format : String)
    (remove_images encode_images_base64 ocr_images convert_math_to_latex : Bool)
    (file_path : String) : ConversionResult × Bool :=
  let file_name := String.mk (lastNameChars file_path.data)
  let v := validate_input_file env.stat file_path
  if v.1 = false then
    (⟨file_name, "N/A", false, some v.2⟩, false)
  else
    let doc_type := CLIConfig.detect_document_type file_path
    match env.converters doc_type with
    | none =>
      (⟨file_name, "N/A", false,
        some ("No converter available for document type: " ++ doc_type)⟩, false)
    | some converter =>
      let output_file := create_output_path env.outputPathExists env.fuel
        file_path output_dir output_format
      let converted : Except String String :=
        if output_format = "markdown" then
          match converter.convert_to_md file_path with
          | Except.error e => Except.error e
          | Except.ok content =>
            Except.ok (applyPostProcessing env.proc remove_images
              encode_images_base64 ocr_images convert_math_to_latex
              (dirname file_path) content)
        else if output_format = "html" then converter.convert_to_html file_path
        else if output_format = "json" then
          match converter.convert_to_json with
          | none =>
            Except.error ("JSON conversion not supported for " ++ doc_type ++ " files")
          | some conv_json => conv_json file_path
        else Except.error "name 'converted_content' is not defined"
      match converted with
      | Except.error e => (⟨file_name, "N/A", false, some e⟩, true)
      | Except.ok content =>
        if env.saveOk content output_file then
          (⟨file_name, String.mk (lastNameChars output_file.data), true, none⟩, true)
        else
          (⟨file_name, "N/A", false,
            some ("Failed to save output to " ++ output_file)⟩, true)

/-! ### The batch loop (batch.py 125–228)

`processBatch` iterates the discovered files in order, invoking the
per-file pipeline (abstracted as `pipeline`, instantiated by
`processOneFile`) and appending one result per attempted file; on a
failed result it stops unless `continue_on_error` is set.  Each returned
pair records the attempted file alongside its result, so a file absent
from the output was never handed to the pipeline.  The exit signal
reproduces `sys.exit(1)` at batch.py 226–228: raised exactly when some
file failed and `continue_on_error` is unset. -/

/-- The batch loop over the discovered files. -/
def processBatch (pipeline : String → ConversionResult) (continue_on_error : Bool) :
    List String → List (String × ConversionResult)
  | [] => []
  | file_path :: rest =>
    let r := pipeline file_path
    if r.success then
      (file_path, r) :: processBatch pipeline continue_on_error rest
    else
      (file_path, r) ::
        (if continue_on_error then processBatch pipeline continue_on_error rest else [])

/-- `successful_conversions`: how many results are marked successful. -/
def successful_conversions (results : List ConversionResult) : Nat :=
  results.countP (fun r => r.success)

/-- `failed_conversions = len(results) - successful_conversions`. -/
def failed_conversions (results : List ConversionResult) : Nat :=
  results.length - successful_conversions results

/-- The overall failure signal: batch.py calls `sys.exit(1)` iff some
conversion failed and `--continue-on-error` was not given. -/
def batchExitFailure (results : List ConversionResult) (continue_on_error : Bool) : Bool :=
  decide (0 < failed_conversions results) && !continue_on_error

/-- The batch run proper: `processBatch` instantiated with the real
per-file pipeline. -/
def batchRun (env : PipelineEnv) (output_dir output_format : String)
    (remove_images encode_images_base64 ocr_images convert_math_to_latex : Bool)
    (continue_on_error : Bool) (files : List String) :
    List (String × ConversionResult) :=
  processBatch
    (fun f => (processOneFile env output_dir output_format remove_images
      encode_images_base64 ocr_images convert_math_to_latex f).1)
    continue_on_error files

/-- Modelled from the spec: the backend converter implementations
(`docling.backend.excel_converter` and friends) are not part of this
repository snapshot — only their import sites and mock stand-ins are.
Per the spec's reference policy (§3 OutputFormat, §4.4), JSON capability
is declared by the excel converter only; word and powerpoint lack
`convert_to_json`.  The conversion methods themselves stay abstract. -/
def referenceRegistry
    (excelMd excelHtml excelJson wordMd wordHtml pptMd pptHtml :
      String → Except String String) : String → Option Converter :=
  fun doc_type =>
    if doc_type = "excel" then some ⟨excelMd, excelHtml, some excelJson⟩
    else if doc_type = "word" then some ⟨wordMd, wordHtml, none⟩
    else if doc_type = "powerpoint" then some ⟨pptMd, pptHtml, none⟩
    else none

/-! ## Helper lemmas -/

/-- With `continue_on_error` set, the batch loop is exactly a map of the
pipeline over the files. -/
theorem processBatch_continue_eq_map (pipeline : String → ConversionResult)
    (files : List String) :
    processBatch pipeline true files = files.map (fun f => (f, pipeline f)) := by
  induction files with
  | nil => rfl
  | cons f rest ih =>
    cases h : (pipeline f).success <;> simp [processBatch, h, ih]

/-- Splitting a list's length into successes and failures. -/
theorem countP_not_success (results : List ConversionResult) :
    results.length = successful_conversions results
      + results.countP (fun r => !(r.success)) := by
  unfold successful_conversions
  induction results with
  | nil => rfl
  | cons r rs ih =>
    cases h : r.success <;>
      simp [List.countP_cons, h, ih] <;> omega

/-- `charListLe` is total. -/
theorem charListLe_total : ∀ as bs : List Char, charListLe as bs = true ∨ charListLe bs as = true := by
  intro as
  induction as with
  | nil => intro bs; left; rfl
  | cons a as ih =>
    intro bs
    cases bs with
    | nil => right; rfl
    | cons b bs =>
      rcases ih bs with h | h <;> simp only [charListLe] <;> split_ifs <;>
        simp_all

/-- `charListLe` is transitive. -/
theorem charListLe_trans : ∀ as bs cs : List Char,
    charListLe as bs = true → charListLe bs cs = true → charListLe as cs = true := by
  intro as
  induction as with
  | nil => intro bs cs _ _; rfl
  | cons a as ih =>
    intro bs cs h1 h2
    cases bs with
    | nil => simp [charListLe] at h1
    | cons b bs =>
      cases cs with
      | nil => simp [charListLe] at h2
      | cons c cs =>
        simp only [charListLe] at h1 h2 ⊢
        split_ifs at h1 h2 ⊢ <;> first
          | rfl
          | omega
          | (exact ih bs cs h1 h2)

instance : IsTotal String stringLe :=
  ⟨fun a b => charListLe_total a.data b.data⟩

instance : IsTrans String stringLe :=
  ⟨fun a b c h1 h2 => charListLe_trans a.data b.data c.data h1 h2⟩

/-- `indexOf` finds the first occurrence after a block without it. -/
theorem indexOf_append_cons_self (a : Char) :
    ∀ (l r : List Char), a ∉ l → (l ++ a :: r).indexOf a = l.length := by
  intro l
  induction l with
  | nil => intro r _; simp
  | cons b l ih =>
    intro r hmem
    have hba : ¬(b == a) = true := by
      simp only [beq_iff_eq]
      intro h
      exact hmem (h ▸ List.mem_cons_self b l)
    simp only [List.cons_append, List.indexOf_cons, hba, cond_false, List.length_cons]
    rw [ih r (fun h => hmem (List.mem_cons_of_mem b h))]

/-- The suffix rule on a name of the shape `pre ++ "." ++ cs` with a
dot-free, nonempty `cs` and non-hidden total: the suffix is `"." ++ cs`. -/
theorem nameSuffixChars_append_dot (cs : List Char) (hne : cs ≠ []) (hdot : '.' ∉ cs)
    (pre : List Char) (name : List Char) (hname : name = pre ++ '.' :: cs)
    (hhid : isHidden name = false) : nameSuffixChars name = '.' :: cs := by
  have hpre : pre ≠ [] := by
    rintro rfl
    rw [hname] at hhid
    simp [isHidden] at hhid
  have hrev : name.reverse = (cs.reverse ++ ['.']) ++ pre.reverse := by
    rw [hname]
    simp
  have hidx : name.reverse.indexOf '.' = cs.length := by
    rw [hrev, List.append_assoc, List.cons_append, List.nil_append,
      indexOf_append_cons_self '.' cs.reverse pre.reverse (by simpa using hdot),
      List.length_reverse]
  have hlen : name.length = pre.length + 1 + cs.length := by
    rw [hname]; simp; omega
  unfold nameSuffixChars
  rw [hidx]
  rw [if_neg (by
    push_neg
    constructor
    · intro h
      exact hne (List.eq_nil_of_length_eq_zero h)
    · have h1 : 1 ≤ pre.length := Nat.one_le_iff_ne_zero.mpr
        (fun h => hpre (List.eq_nil_of_length_eq_zero h))
      omega)]
  rw [hrev]
  rw [show cs.length + 1 = (cs.reverse ++ ['.']).length from by simp]
  rw [List.take_left]
  simp

/-- Membership in the flat extension list, case by case. -/
theorem supported_ext_cases (ext : String)
    (h : ext ∈ CLIConfig.get_all_supported_extensions) :
    ext = ".xlsx" ∨ ext = ".xls" ∨ ext = ".docx" ∨ ext = ".doc"
      ∨ ext = ".pptx" ∨ ext = ".ppt" := by
  simpa [CLIConfig.get_all_supported_extensions, CLIConfig.excelExtensions,
    CLIConfig.wordExtensions, CLIConfig.powerpointExtensions] using h

/-- A non-hidden name that ends (case-sensitively) with a supported
extension has exactly that extension as its `Path.suffix`. -/
theorem nameSuffixChars_of_supported (ext : String)
    (hext : ext ∈ CLIConfig.get_all_supported_extensions)
    (name : List Char) (hsuf : ext.data.isSuffixOf name = true)
    (hhid : isHidden name = false) : nameSuffixChars name = ext.data := by
  rw [List.isSuffixOf_iff_suffix] at hsuf
  obtain ⟨pre, hpre⟩ := hsuf
  rcases supported_ext_cases ext hext with h | h | h | h | h | h <;> subst h <;>
    exact nameSuffixChars_append_dot _ (by decide) (by decide) pre name
      (by rw [← hpre]) hhid

/-- `takeWhile` swallows a block of satisfying elements up to the first
failing one. -/
theorem takeWhile_append_cons (p : Char → Bool) :
    ∀ (l r : List Char) (c : Char), (∀ x ∈ l, p x = true) → p c = false →
      (l ++ c :: r).takeWhile p = l := by
  intro l
  induction l with
  | nil => intro r c _ hc; simp [List.takeWhile_cons, hc]
  | cons b l ih =>
    intro r c hl hc
    have hb : p b = true := hl b (List.mem_cons_self b l)
    simp only [List.cons_append, List.takeWhile_cons, hb, if_true]
    rw [ih r c (fun x hx => hl x (List.mem_cons_of_mem b hx)) hc]

/-- The name of a path of the shape `d ++ "/" ++ name`, for a nonempty
slash-free `name`, is `name`. -/
theorem lastNameChars_append (d name : List Char) (h1 : name ≠ []) (h2 : '/' ∉ name) :
    lastNameChars (d ++ '/' :: name) = name := by
  have hrev : (d ++ '/' :: name).reverse = name.reverse ++ '/' :: d.reverse := by
    simp
  obtain ⟨c, t, hct⟩ : ∃ c t, name.reverse = c :: t := by
    cases hn : name.reverse with
    | nil => exact absurd (by simpa using hn) h1
    | cons c t => exact ⟨c, t, rfl⟩
  have hcmem : c ∈ name := by
    rw [← List.mem_reverse, hct]; exact List.mem_cons_self c t
  have hcne : ¬(c = '/') := fun h => h2 (h ▸ hcmem)
  unfold lastNameChars
  rw [hrev]
  rw [show name.reverse ++ '/' :: d.reverse = c :: (t ++ '/' :: d.reverse) from by
    rw [hct]; rfl]
  rw [List.dropWhile_cons_of_neg (by simpa using hcne)]
  rw [show c :: (t ++ '/' :: d.reverse) = (c :: t) ++ '/' :: d.reverse from rfl]
  rw [takeWhile_append_cons _ (c :: t) d.reverse '/'
    (by
      intro x hx
      have hxmem : x ∈ name := List.mem_reverse.mp (by rw [hct]; exact hx)
      simp only [ne_eq, decide_eq_true_eq]
      intro h
      exact h2 (h ▸ hxmem))
    (by simp)]
  rw [← hct, List.reverse_reverse]

/-- `joinParts` of a list ending in `name`. -/
theorem joinParts_append (ds : List String) (name : String) :
    joinParts (ds ++ [name]) = if ds = [] then name else joinParts ds ++ "/" ++ name := by
  induction ds with
  | nil => rfl
  | cons d ds ih =>
    cases ds with
    | nil => rfl
    | cons d' ds' =>
      simp only [List.cons_append] at ih ⊢
      rw [if_neg (by simp)]
      rw [show joinParts (d :: d' :: (ds' ++ [name]))
          = d ++ "/" ++ joinParts (d' :: (ds' ++ [name])) from rfl]
      rw [ih, if_neg (by simp)]
      rw [show joinParts (d :: d' :: ds') = d ++ "/" ++ joinParts (d' :: ds') from rfl]
      simp [String.ext_iff]

/-- The full path of an entry whose parts end in `name` splits as
`d ++ "/" ++ name` at the character level. -/
theorem fullPath_data (directory : String) (e : FSEntry) (ds : List String) (name : String)
    (hparts : e.parts = ds ++ [name]) :
    ∃ d : List Char, (fullPath directory e).data = d ++ '/' :: name.data := by
  unfold fullPath
  rw [hparts, joinParts_append]
  cases hds : ds with
  | nil =>
    refine ⟨directory.data, ?_⟩
    rw [if_pos rfl]
    simp
  | cons d' ds' =>
    refine ⟨(directory ++ "/" ++ joinParts (d' :: ds')).data, ?_⟩
    rw [if_neg (by simp)]
    simp

/-- Membership characterization of directory discovery: a path is
returned exactly when the directory is readable and some entry
glob-matches some supported extension with that full path. -/
theorem mem_find_files (listing : DirectoryListing) (directory : String)
    (recursive : Bool) (p : String) :
    p ∈ find_files_in_directory listing directory recursive ↔
      (listing.dirOk = true ∧ ∃ e, e ∈ listing.entries
        ∧ ∃ ext, ext ∈ CLIConfig.get_all_supported_extensions
          ∧ globMatch recursive ext e = true ∧ p = fullPath directory e) := by
  unfold find_files_in_directory
  cases hok : listing.dirOk with
  | false => simp
  | true =>
    rw [if_neg (by simp)]
    rw [(List.perm_insertionSort stringLe _).mem_iff]
    simp only [List.mem_flatten, List.mem_map, List.mem_filter, true_and]
    constructor
    · rintro ⟨l, ⟨ext, hext, rfl⟩, hpl⟩
      obtain ⟨e, hef, rfl⟩ := List.mem_map.mp hpl
      obtain ⟨he, hglob⟩ := List.mem_filter.mp hef
      exact ⟨e, he, ext, hext, hglob, rfl⟩
    · rintro ⟨e, he, ext, hext, hglob, rfl⟩
      exact ⟨(listing.entries.filter (fun e => globMatch recursive ext e)).map
          (fullPath directory),
        ⟨ext, hext, rfl⟩,
        List.mem_map_of_mem _ (List.mem_filter.mpr ⟨he, hglob⟩)⟩

/-- Discovery output is sorted in the model's string order. -/
theorem find_files_sorted (listing : DirectoryListing) (directory : String)
    (recursive : Bool) :
    List.Sorted stringLe (find_files_in_directory listing directory recursive) := by
  unfold find_files_in_directory
  cases hok : listing.dirOk with
  | false => simp
  | true =>
    rw [if_neg (by simp)]
    exact List.sorted_insertionSort stringLe _

/-- A path whose lower-cased suffix is a supported extension never
classifies to `"unknown"`. -/
theorem detect_ne_unknown_of_supported (p : String)
    (h : strLower (pathSuffix p) ∈ CLIConfig.get_all_supported_extensions) :
    CLIConfig.detect_document_type p ≠ "unknown" := by
  unfold CLIConfig.detect_document_type
  split_ifs with h1 h2 h3
  · decide
  · decide
  · decide
  · exfalso
    rw [CLIConfig.get_all_supported_extensions] at h
    rcases List.mem_append.mp h with h' | h'
    · rcases List.mem_append.mp h' with h'' | h''
      · exact h1 h''
      · exact h2 h''
    · exact h3 h'

/-- The six supported extensions are already lower-case. -/
theorem strLower_supported : ∀ ext ∈ CLIConfig.get_all_supported_extensions,
    strLower ext = ext := by decide

/-! ## Claim theorems -/

/-- C1: in every Markdown post-processing run where more than one of the
three image options {remove, base64-encode, OCR} is selected, the result
coincides with the run in which only the highest-priority image option
(priority: remove, then base64, then OCR) is selected — the others are
silently skipped; and whenever the math-to-LaTeX option is selected it is
applied afterwards, on top of whatever the image stage produced. -/
theorem postprocessing_image_priority (proc : PostProcessor)
    (remove_images encode_images_base64 ocr_images convert_math_to_latex : Bool)
    (base_path content : String)
    (h : ((remove_images && encode_images_base64) || (remove_images && ocr_images)
          || (encode_images_base64 && ocr_images)) = true) :
    (applyPostProcessing proc remove_images encode_images_base64 ocr_images
        convert_math_to_latex base_path content =
      (if remove_images then
        applyPostProcessing proc true false false convert_math_to_latex base_path content
      else if encode_images_base64 then
        applyPostProcessing proc false true false convert_math_to_latex base_path content
      else
        applyPostProcessing proc false false true convert_math_to_latex base_path content))
    ∧ (convert_math_to_latex = true →
        applyPostProcessing proc remove_images encode_images_base64 ocr_images
            convert_math_to_latex base_path content =
          proc.convert_plain_math_to_latex
            (applyPostProcessing proc remove_images encode_images_base64 ocr_images
              false base_path content)) := by
  cases remove_images <;> cases encode_images_base64 <;> cases ocr_images <;>
    cases convert_math_to_latex <;> simp_all [applyPostProcessing]

/-- A post-processor with observably distinct transforms, for the C1
witness. -/
def procW : PostProcessor :=
  ⟨fun s => "R" ++ s, fun s p => "E" ++ s ++ p, fun s p => "O" ++ s ++ p,
    fun s => "M" ++ s⟩

/-- Witness for C1: with all four options selected, only the
remove-images transform runs among the image options, and the math
transform is applied on top. -/
theorem postprocessing_image_priority_witness :
    applyPostProcessing procW true true true true "base" "content" =
      applyPostProcessing procW true false false true "base" "content"
    ∧ applyPostProcessing procW true true true true "base" "content" =
        procW.convert_plain_math_to_latex
          (applyPostProcessing procW true true true false "base" "content") := by
  have h := postprocessing_image_priority procW true true true true "base" "content"
    (by decide)
  exact ⟨by simpa using h.1, h.2 rfl⟩

/-- C3: with `continue_on_error = true`, every one of the `N` requested
files is attempted (the trace of attempted files is the whole request
list), `N` result records are produced, the success and failure counts
match the per-file outcomes, and the overall failure signal is off no
matter how many files failed. -/
theorem batch_continue_on_error_spec (pipeline : String → ConversionResult)
    (files : List String) :
    processBatch pipeline true files = files.map (fun f => (f, pipeline f))
    ∧ ((processBatch pipeline true files).map Prod.snd).length = files.length
    ∧ successful_conversions ((processBatch pipeline true files).map Prod.snd)
        = files.countP (fun f => (pipeline f).success)
    ∧ failed_conversions ((processBatch pipeline true files).map Prod.snd)
        = files.countP (fun f => !((pipeline f).success))
    ∧ batchExitFailure ((processBatch pipeline true files).map Prod.snd) true = false := by
  have hmap := processBatch_continue_eq_map pipeline files
  have hsnd : (processBatch pipeline true files).map Prod.snd
      = files.map (fun f => pipeline f) := by
    rw [hmap, List.map_map]; rfl
  refine ⟨hmap, ?_, ?_, ?_, ?_⟩
  · rw [hsnd, List.length_map]
  · rw [hsnd]; unfold successful_conversions; rw [List.countP_map]; rfl
  · rw [hsnd]; unfold failed_conversions successful_conversions
    have h1 := countP_not_success (files.map (fun f => pipeline f))
    unfold successful_conversions at h1
    simp only [List.countP_map, List.length_map, Function.comp_def] at h1 ⊢
    omega
  · unfold batchExitFailure; simp

/-- Early-termination shape of the batch loop without
`continue_on_error`: if the first `j` files succeed and the `(j+1)`-st
fails, the loop attempts and records exactly the first `j + 1` files,
the recorded success flags being `j` times `true` then one `false`. -/
theorem processBatch_stop_aux (pipeline : String → ConversionResult) :
    ∀ (files : List String) (j : Nat) (fk : String),
      (∀ f ∈ files.take j, (pipeline f).success = true) →
      files[j]? = some fk → (pipeline fk).success = false →
      (processBatch pipeline false files).map Prod.fst = files.take (j + 1)
      ∧ (processBatch pipeline false files).map (fun r => r.2.success)
          = List.replicate j true ++ [false] := by
  intro files
  induction files with
  | nil => intro j fk _ hkth; simp at hkth
  | cons f rest ih =>
    intro j fk hbefore hkth hfail
    cases j with
    | zero =>
      obtain rfl : fk = f := by simpa using hkth.symm
      simp [processBatch, hfail]
    | succ j =>
      have hf : (pipeline f).success = true := by
        apply hbefore; simp [List.take_succ_cons]
      have hbefore' : ∀ g ∈ rest.take j, (pipeline g).success = true := by
        intro g hg; apply hbefore; simp [List.take_succ_cons, hg]
      have hkth' : rest[j]? = some fk := by simpa using hkth
      obtain ⟨h1, h2⟩ := ih j fk hbefore' hkth' hfail
      constructor
      · simp [processBatch, hf, h1, List.take_succ_cons]
      · simp [processBatch, hf, h2, List.replicate_succ]

/-- If the recorded success flags are `m` times `true` followed by one
`false`, the exit signal without `continue_on_error` is raised. -/
theorem exitFailure_of_flags (results : List ConversionResult) (m : Nat)
    (h : results.map (fun r => r.success) = List.replicate m true ++ [false]) :
    batchExitFailure results false = true := by
  have hcount : successful_conversions results = m := by
    unfold successful_conversions
    have h1 : List.countP (fun b => b) (results.map (fun r => r.success))
        = List.countP (fun r => r.success) results := by
      rw [List.countP_map]; rfl
    rw [h] at h1
    rw [← h1, List.countP_append]
    simp [List.countP_replicate]
  have hlen : results.length = m + 1 := by
    have := congrArg List.length h
    simpa using this
  unfold batchExitFailure failed_conversions
  simp [hcount, hlen]

/-- C2: with `continue_on_error = false` and the first failure at
1-indexed position `k` of the request list, the batch attempts and
records exactly the first `k` files (later files are neither attempted —
they never reach the pipeline — nor recorded), the first `k - 1` records
are successes, the `k`-th is the failure, and the overall failure signal
(`sys.exit(1)`) is raised. -/
theorem batch_stop_on_first_error (pipeline : String → ConversionResult)
    (files : List String) (k : Nat) (fk : String)
    (hk : 1 ≤ k)
    (hbefore : ∀ f ∈ files.take (k - 1), (pipeline f).success = true)
    (hkth : files[k - 1]? = some fk)
    (hfail : (pipeline fk).success = false) :
    (processBatch pipeline false files).map Prod.fst = files.take k
    ∧ (processBatch pipeline false files).map (fun r => r.2.success)
        = List.replicate (k - 1) true ++ [false]
    ∧ batchExitFailure ((processBatch pipeline false files).map Prod.snd) false = true := by
  obtain ⟨h1, h2⟩ := processBatch_stop_aux pipeline files (k - 1) fk hbefore hkth hfail
  have hk1 : k - 1 + 1 = k := by omega
  refine ⟨by rw [← hk1]; exact h1, h2, ?_⟩
  apply exitFailure_of_flags _ (k - 1)
  rw [List.map_map]
  exact h2

/-- A pipeline stub for the batch witnesses: fails exactly on the file
named "bad". -/
def pipelineW (f : String) : ConversionResult :=
  if f = "bad" then ⟨f, "N/A", false, some "boom"⟩ else ⟨f, f ++ ".md", true, none⟩

/-- Witness for C2: four requested files with the first failure in third
position — exactly three records, the first two successful, the third
failed, no fourth attempt, and the failure signal raised. -/
theorem batch_stop_on_first_error_witness :
    (processBatch pipelineW false ["a", "b", "bad", "d"]).map Prod.fst = ["a", "b", "bad"]
    ∧ (processBatch pipelineW false ["a", "b", "bad", "d"]).map (fun r => r.2.success)
        = [true, true, false]
    ∧ batchExitFailure
        ((processBatch pipelineW false ["a", "b", "bad", "d"]).map Prod.snd) false = true := by
  have h := batch_stop_on_first_error pipelineW ["a", "b", "bad", "d"] 3 "bad"
    (by decide) (by decide) (by decide) (by decide)
  exact ⟨by simpa using h.1, by simpa using h.2.1, h.2.2⟩

/-- An environment whose (only) converter fails: the excel converter
raises on every conversion.  Used to exhibit the pipeline's step order. -/
def envC6 : PipelineEnv :=
  ⟨⟨true, true, 0⟩,
    (fun t => if t = "excel" then
        some ⟨fun _ => Except.error "conversion boom",
          fun _ => Except.error "conversion boom", none⟩
      else none),
    ⟨id, fun c _ => c, fun c _ => c, id⟩,
    fun _ => false, 1, fun _ _ => true⟩

/-- Counterexample to C6 as stated: a file whose conversion fails for
which the output path *was* resolved (and hence the output directory
created) — `create_output_path` runs before the converter is invoked, at
convert.py line 109 and batch.py line 143. -/
theorem pipeline_resolves_path_for_failed_conversion :
    (processOneFile envC6 "out" "markdown" false false false false "a.xlsx").1.success = false
    ∧ (processOneFile envC6 "out" "markdown" false false false false "a.xlsx").2 = true :=
  ⟨rfl, rfl⟩

/-- C6 (amended): the per-file pipeline performs validation, then
classification and converter lookup, then output-path resolution (with
output-directory creation), and only then conversion, post-processing and
persistence; the output path is resolved exactly when validation succeeds
and a converter exists for the classified type — in particular it is
resolved even for files whose conversion or save subsequently fails. -/
theorem pipeline_path_resolution_order (env : PipelineEnv)
    (output_dir output_format : String)
    (remove_images encode_images_base64 ocr_images convert_math_to_latex : Bool)
    (file_path : String) :
    (processOneFile env output_dir output_format remove_images encode_images_base64
        ocr_images convert_math_to_latex file_path).2
      = ((validate_input_file env.stat file_path).1
          && (env.converters (CLIConfig.detect_document_type file_path)).isSome) := by
  unfold processOneFile
  cases hv : (validate_input_file env.stat file_path).1 with
  | false => simp [hv]
  | true =>
    cases hc : env.converters (CLIConfig.detect_document_type file_path) with
    | none => simp [hv, hc]
    | some conv =>
      simp only [hv, hc, Option.isSome_some, Bool.true_and,
        Bool.true_eq_false, if_false]
      split
      · rfl
      · split <;> rfl

/-- A JSON-format request against a converter without the
`convert_to_json` attribute produces the json-not-supported failure
record (and the output path was already resolved). -/
theorem processOneFile_json_no_capability (env : PipelineEnv)
    (output_dir file_path : String)
    (hvalid : (validate_input_file env.stat file_path).1 = true)
    (cmd chtml : String → Except String String)
    (hconv : env.converters (CLIConfig.detect_document_type file_path)
      = some ⟨cmd, chtml, none⟩) :
    processOneFile env output_dir "json" false false false false file_path
      = (⟨String.mk (lastNameChars file_path.data), "N/A", false,
          some ("JSON conversion not supported for "
            ++ CLIConfig.detect_document_type file_path ++ " files")⟩, true) := by
  unfold processOneFile
  rw [if_neg (by simp [hvalid])]
  simp only [hconv]
  rfl

/-- A JSON-format request against a converter that has the capability
invokes it normally: when the conversion and the save succeed, the result
is a success record. -/
theorem processOneFile_json_with_capability (env : PipelineEnv)
    (output_dir file_path : String)
    (hvalid : (validate_input_file env.stat file_path).1 = true)
    (cmd chtml cjson : String → Except String String)
    (hconv : env.converters (CLIConfig.detect_document_type file_path)
      = some ⟨cmd, chtml, some cjson⟩)
    (content : String) (hok : cjson file_path = Except.ok content)
    (hsave : env.saveOk content (create_output_path env.outputPathExists env.fuel
      file_path output_dir "json") = true) :
    (processOneFile env output_dir "json" false false false false file_path).1.success
      = true := by
  unfold processOneFile
  rw [if_neg (by simp [hvalid])]
  simp only [hconv]
  simp [hok, hsave]

/-- C7 (registry capabilities modelled from the spec: JSON capability is
declared by the excel converter only): a JSON conversion request
dispatched to the word or powerpoint converter yields a recorded
json-not-supported failure for that file — a `ConversionResult`, not a
crash — while the excel converter, which has the capability, is invoked
normally and succeeds when its conversion and the save succeed. -/
theorem json_requests_against_reference_registry
    (st : FileStat) (proc : PostProcessor) (opExists : String → Bool) (fuel : Nat)
    (saveOk : String → String → Bool)
    (excelMd excelHtml excelJson wordMd wordHtml pptMd pptHtml :
      String → Except String String)
    (output_dir file_path : String)
    (hvalid : (validate_input_file st file_path).1 = true) :
    (CLIConfig.detect_document_type file_path = "word"
      ∨ CLIConfig.detect_document_type file_path = "powerpoint" →
      processOneFile
          ⟨st, referenceRegistry excelMd excelHtml excelJson wordMd wordHtml pptMd pptHtml,
            proc, opExists, fuel, saveOk⟩
          output_dir "json" false false false false file_path
        = (⟨String.mk (lastNameChars file_path.data), "N/A", false,
            some ("JSON conversion not supported for "
              ++ CLIConfig.detect_document_type file_path ++ " files")⟩, true))
    ∧ (CLIConfig.detect_document_type file_path = "excel" →
        ∀ content, excelJson file_path = Except.ok content →
          saveOk content (create_output_path opExists fuel file_path output_dir "json")
            = true →
          (processOneFile
              ⟨st, referenceRegistry excelMd excelHtml excelJson wordMd wordHtml pptMd pptHtml,
                proc, opExists, fuel, saveOk⟩
              output_dir "json" false false false false file_path).1.success = true) := by
  constructor
  · rintro (h | h)
    · exact processOneFile_json_no_capability _ output_dir file_path hvalid
        wordMd wordHtml (by rw [h]; rfl)
    · exact processOneFile_json_no_capability _ output_dir file_path hvalid
        pptMd pptHtml (by rw [h]; rfl)
  · intro h content hok hsave
    exact processOneFile_json_with_capability _ output_dir file_path hvalid
      excelMd excelHtml excelJson (by rw [h]; rfl) content hok hsave

/-- Witness for C7: a word file (`doc.docx`) requested as JSON fails with
the json-not-supported message, while an excel file (`table.xlsx`)
requested as JSON succeeds. -/
theorem json_requests_against_reference_registry_witness :
    processOneFile
        ⟨⟨true, true, 0⟩,
          referenceRegistry (fun _ => Except.ok "m") (fun _ => Except.ok "h")
            (fun _ => Except.ok "j") (fun _ => Except.ok "m") (fun _ => Except.ok "h")
            (fun _ => Except.ok "m") (fun _ => Except.ok "h"),
          ⟨id, fun c _ => c, fun c _ => c, id⟩, fun _ => false, 1, fun _ _ => true⟩
        "out" "json" false false false false "doc.docx"
      = (⟨"doc.docx", "N/A", false,
          some "JSON conversion not supported for word files"⟩, true)
    ∧ (processOneFile
        ⟨⟨true, true, 0⟩,
          referenceRegistry (fun _ => Except.ok "m") (fun _ => Except.ok "h")
            (fun _ => Except.ok "j") (fun _ => Except.ok "m") (fun _ => Except.ok "h")
            (fun _ => Except.ok "m") (fun _ => Except.ok "h"),
          ⟨id, fun c _ => c, fun c _ => c, id⟩, fun _ => false, 1, fun _ _ => true⟩
        "out" "json" false false false false "table.xlsx").1.success = true := by
  constructor
  · have h := (json_requests_against_reference_registry ⟨true, true, 0⟩
      ⟨id, fun c _ => c, fun c _ => c, id⟩ (fun _ => false) 1 (fun _ _ => true)
      (fun _ => Except.ok "m") (fun _ => Except.ok "h") (fun _ => Except.ok "j")
      (fun _ => Except.ok "m") (fun _ => Except.ok "h") (fun _ => Except.ok "m")
      (fun _ => Except.ok "h") "out" "doc.docx" (by decide)).1 (Or.inl (by decide))
    simpa using h
  · exact (json_requests_against_reference_registry ⟨true, true, 0⟩
      ⟨id, fun c _ => c, fun c _ => c, id⟩ (fun _ => false) 1 (fun _ _ => true)
      (fun _ => Except.ok "m") (fun _ => Except.ok "h") (fun _ => Except.ok "j")
      (fun _ => Except.ok "m") (fun _ => Except.ok "h") (fun _ => Except.ok "m")
      (fun _ => Except.ok "h") "out" "table.xlsx" (by decide)).2 (by decide)
      "j" rfl rfl

/-- C8: `detect_document_type` is a total function on all path strings:
its value is always one of the four type tags; whenever the lower-cased
suffix lies in a type's extension list the owning type is returned, and
whenever it lies in no list the result is `"unknown"`. -/
theorem detect_document_type_total (p : String) :
    (CLIConfig.detect_document_type p = "excel"
      ∨ CLIConfig.detect_document_type p = "word"
      ∨ CLIConfig.detect_document_type p = "powerpoint"
      ∨ CLIConfig.detect_document_type p = "unknown")
    ∧ (strLower (pathSuffix p) ∈ CLIConfig.excelExtensions →
        CLIConfig.detect_document_type p = "excel")
    ∧ (strLower (pathSuffix p) ∈ CLIConfig.wordExtensions →
        CLIConfig.detect_document_type p = "word")
    ∧ (strLower (pathSuffix p) ∈ CLIConfig.powerpointExtensions →
        CLIConfig.detect_document_type p = "powerpoint")
    ∧ (strLower (pathSuffix p) ∉ CLIConfig.get_all_supported_extensions →
        CLIConfig.detect_document_type p = "unknown") := by
  have hdisj1 : ∀ e ∈ CLIConfig.wordExtensions, e ∉ CLIConfig.excelExtensions := by decide
  have hdisj2 : ∀ e ∈ CLIConfig.powerpointExtensions,
      e ∉ CLIConfig.excelExtensions ∧ e ∉ CLIConfig.wordExtensions := by decide
  unfold CLIConfig.detect_document_type
  refine ⟨?_, ?_, ?_, ?_, ?_⟩
  · split_ifs <;> simp
  · intro h; rw [if_pos h]
  · intro h
    rw [if_neg (hdisj1 _ h), if_pos h]
  · intro h
    rw [if_neg (hdisj2 _ h).1, if_neg (hdisj2 _ h).2, if_pos h]
  · intro h
    rw [CLIConfig.get_all_supported_extensions, List.append_assoc] at h
    simp only [List.mem_append, not_or] at h
    rw [if_neg h.1, if_neg h.2.1, if_neg h.2.2]

/-- Witness for C8: a word path, an upper-case excel path and an
unsupported path classify as the claim states. -/
theorem detect_document_type_total_witness :
    CLIConfig.detect_document_type "a/b.docx" = "word"
    ∧ CLIConfig.detect_document_type "a/REPORT.XLSX" = "excel"
    ∧ CLIConfig.detect_document_type "a/b.txt" = "unknown" :=
  ⟨(detect_document_type_total "a/b.docx").2.2.1 (by decide),
    (detect_document_type_total "a/REPORT.XLSX").2.1 (by decide),
    (detect_document_type_total "a/b.txt").2.2.2.2 (by decide)⟩

/-- The collision-avoidance loop returns the first free candidate: if
some candidate within `fuel` steps of `start` is free, the loop stops at
the least free index, every candidate below it being occupied. -/
theorem findFreeName_min (pathExists : String → Bool) (output_dir base_name ext : String) :
    ∀ (fuel start : Nat),
      (∃ k, k ≤ fuel
        ∧ pathExists (outputCandidate output_dir base_name ext (start + k)) = false) →
      ∃ k, k ≤ fuel
        ∧ findFreeName pathExists output_dir base_name ext fuel start
            = outputCandidate output_dir base_name ext (start + k)
        ∧ pathExists (outputCandidate output_dir base_name ext (start + k)) = false
        ∧ ∀ m, m < k → pathExists (outputCandidate output_dir base_name ext (start + m)) = true := by
  intro fuel
  induction fuel with
  | zero =>
    rintro start ⟨k, hk, hfree⟩
    obtain rfl : k = 0 := Nat.le_zero.mp hk
    exact ⟨0, le_rfl, rfl, hfree, fun m hm => absurd hm (Nat.not_lt_zero m)⟩
  | succ fuel ih =>
    rintro start ⟨k, hk, hfree⟩
    cases h0 : pathExists (outputCandidate output_dir base_name ext start) with
    | false =>
      refine ⟨0, Nat.zero_le _, ?_, by simpa using h0,
        fun m hm => absurd hm (Nat.not_lt_zero m)⟩
      simp [findFreeName, h0]
    | true =>
      have hk0 : k ≠ 0 := by
        rintro rfl
        rw [Nat.add_zero] at hfree
        rw [hfree] at h0
        cases h0
      obtain ⟨k', rfl⟩ : ∃ k', k = k' + 1 := ⟨k - 1, by omega⟩
      have hshift : start + (k' + 1) = (start + 1) + k' := by omega
      obtain ⟨k₀, hk₀, heq, hfree₀, hmin₀⟩ :=
        ih (start + 1) ⟨k', by omega, by rw [← hshift]; exact hfree⟩
      refine ⟨k₀ + 1, by omega, ?_, ?_, ?_⟩
      · rw [show findFreeName pathExists output_dir base_name ext (fuel + 1) start
            = findFreeName pathExists output_dir base_name ext fuel (start + 1) from by
          simp [findFreeName, h0], heq]
        congr 1
        omega
      · rw [show start + (k₀ + 1) = (start + 1) + k₀ from by omega]
        exact hfree₀
      · intro m hm
        cases m with
        | zero => simpa using h0
        | succ m =>
          rw [show start + (m + 1) = (start + 1) + m from by omega]
          exact hmin₀ m (by omega)

/-- Under a totally clean set of candidate names and numbering
injectivity on the used range, `N` successive materialized calls return
exactly the candidates numbered `0, 1, …, N-1` in order. -/
theorem materializeCalls_eq_range (pathExists : String → Bool) (fuel : Nat)
    (input_file output_dir output_format : String) :
    ∀ N : Nat,
      (∀ n, pathExists (outputCandidate output_dir (pathStem input_file)
        (formatExtension output_format) n) = false) →
      (∀ i, i < N + 1 → ∀ j, j < N + 1 →
        outputCandidate output_dir (pathStem input_file) (formatExtension output_format) i
          = outputCandidate output_dir (pathStem input_file) (formatExtension output_format) j
        → i = j) →
      N ≤ fuel + 1 →
      materializeCalls pathExists fuel input_file output_dir output_format N
        = (List.range N).map
            (outputCandidate output_dir (pathStem input_file) (formatExtension output_format)) := by
  intro N
  induction N with
  | zero => intro _ _ _; rfl
  | succ N ih =>
    intro hclean hinj hfuel
    have hprev := ih hclean (fun i hi j hj => hinj i (by omega) j (by omega)) (by omega)
    have hcall : create_output_path
        (fun p => pathExists p ||
          (materializeCalls pathExists fuel input_file output_dir output_format N).contains p)
        fuel input_file output_dir output_format
        = outputCandidate output_dir (pathStem input_file) (formatExtension output_format) N := by
      rw [hprev]
      set cand := outputCandidate output_dir (pathStem input_file)
        (formatExtension output_format) with hcand
      set pe := fun p => pathExists p || (List.map cand (List.range N)).contains p with hpe
      have hoccB : ∀ m, m < N → pe (cand m) = true := by
        intro m hm
        show (pathExists (cand m) || (List.map cand (List.range N)).contains (cand m)) = true
        have hmem : cand m ∈ List.map cand (List.range N) :=
          List.mem_map_of_mem _ (List.mem_range.mpr hm)
        have hc : (List.map cand (List.range N)).contains (cand m) = true := by
          rw [List.contains_eq_any_beq]
          exact List.any_eq_true.mpr ⟨cand m, hmem, by simp⟩
        rw [hc, Bool.or_true]
      have hfreeB : pe (cand N) = false := by
        show (pathExists (cand N) || (List.map cand (List.range N)).contains (cand N)) = false
        have hnotmem : cand N ∉ List.map cand (List.range N) := by
          intro hmem
          obtain ⟨i, hi, hie⟩ := List.mem_map.mp hmem
          rw [List.mem_range] at hi
          have := hinj i (by omega) N (by omega) hie
          omega
        have hc : (List.map cand (List.range N)).contains (cand N) = false := by
          rw [List.contains_eq_any_beq]
          refine List.any_eq_false.mpr ?_
          intro q hq hbeq
          exact hnotmem ((eq_of_beq hbeq) ▸ hq)
        rw [hclean N, hc]
        rfl
      obtain ⟨k₀, hk₀, heq, hfree₀, hmin₀⟩ :=
        findFreeName_min pe
          output_dir (pathStem input_file) (formatExtension output_format) fuel 0
          ⟨N, by omega, by simpa using hfreeB⟩
      simp only [Nat.zero_add] at heq hfree₀ hmin₀
      rw [← hcand] at hfree₀ hmin₀
      have hkN : k₀ = N := by
        rcases Nat.lt_trichotomy k₀ N with h | h | h
        · rw [hoccB k₀ h] at hfree₀
          cases hfree₀
        · exact h
        · have h2 := hmin₀ N h
          rw [hfreeB] at h2
          cases h2
      unfold create_output_path
      rw [heq, hkN]
    unfold materializeCalls
    rw [hcall, hprev, List.range_succ, List.map_append]
    rfl

/-- C4: `create_output_path` maps markdown/html/json to `.md`/`.html`/
`.json` and any other format string to `.txt`; when some numbered
candidate is free it returns the first free candidate in the order
`stem.ext, stem_1.ext, stem_2.ext, …` — in particular the returned path
never names an existing file; under a clean output directory it returns
`output_dir/stem.ext` (so repeated calls against the unchanged directory
return the same path); and `N` successive calls, each prior result being
materialized before the next call, return the `N` distinct paths numbered
`0, 1, …, N-1` deterministically. -/
theorem create_output_path_spec (pathExists : String → Bool) (fuel : Nat)
    (input_file output_dir output_format : String) :
    (formatExtension "markdown" = ".md" ∧ formatExtension "html" = ".html"
      ∧ formatExtension "json" = ".json"
      ∧ (output_format ≠ "markdown" → output_format ≠ "html" → output_format ≠ "json" →
          formatExtension output_format = ".txt"))
    ∧ ((∃ n, n ≤ fuel ∧ pathExists (outputCandidate output_dir (pathStem input_file)
          (formatExtension output_format) n) = false) →
        ∃ n, n ≤ fuel
          ∧ create_output_path pathExists fuel input_file output_dir output_format
              = outputCandidate output_dir (pathStem input_file)
                  (formatExtension output_format) n
          ∧ pathExists (outputCandidate output_dir (pathStem input_file)
              (formatExtension output_format) n) = false
          ∧ ∀ m, m < n → pathExists (outputCandidate output_dir (pathStem input_file)
              (formatExtension output_format) m) = true)
    ∧ (pathExists (outputCandidate output_dir (pathStem input_file)
          (formatExtension output_format) 0) = false →
        create_output_path pathExists fuel input_file output_dir output_format
          = outputCandidate output_dir (pathStem input_file)
              (formatExtension output_format) 0)
    ∧ (∀ N : Nat,
        (∀ n, pathExists (outputCandidate output_dir (pathStem input_file)
          (formatExtension output_format) n) = false) →
        (∀ i, i < N + 1 → ∀ j, j < N + 1 →
          outputCandidate output_dir (pathStem input_file) (formatExtension output_format) i
            = outputCandidate output_dir (pathStem input_file) (formatExtension output_format) j
          → i = j) →
        N ≤ fuel + 1 →
        materializeCalls pathExists fuel input_file output_dir output_format N
          = (List.range N).map (outputCandidate output_dir (pathStem input_file)
              (formatExtension output_format))
        ∧ (materializeCalls pathExists fuel input_file output_dir output_format N).Nodup) := by
  refine ⟨⟨rfl, rfl, rfl, ?_⟩, ?_, ?_, ?_⟩
  · intro h1 h2 h3
    unfold formatExtension
    rw [if_neg h1, if_neg h2, if_neg h3]
  · rintro ⟨n, hn, hfree⟩
    obtain ⟨k, hk, heq, hfreek, hmink⟩ :=
      findFreeName_min pathExists output_dir (pathStem input_file)
        (formatExtension output_format) fuel 0 ⟨n, hn, by simpa using hfree⟩
    exact ⟨k, hk, by simpa using heq, by simpa using hfreek,
      fun m hm => by simpa using hmink m hm⟩
  · intro hfree
    unfold create_output_path
    cases fuel with
    | zero => rfl
    | succ fuel => simp [findFreeName, hfree]
  · intro N hclean hinj hfuel
    have heq := materializeCalls_eq_range pathExists fuel input_file output_dir
      output_format N hclean hinj hfuel
    refine ⟨heq, ?_⟩
    rw [heq]
    apply List.Nodup.map_on
    · intro i hi j hj hij
      exact hinj i (by rw [List.mem_range] at hi; omega)
        j (by rw [List.mem_range] at hj; omega) hij
    · exact List.nodup_range N

/-- Witness for C4: a clean `out` directory, input stem `report`,
markdown format — two materialized calls return `out/report.md` then
`out/report_1.md`, distinct; the first call alone is idempotent at
`out/report.md`; and the first free candidate is returned when
`out/report.md` is occupied. -/
theorem create_output_path_spec_witness :
    formatExtension "docbook" = ".txt"
    ∧ create_output_path (fun _ => false) 2 "in/report.xlsx" "out" "markdown"
        = "out/report.md"
    ∧ materializeCalls (fun _ => false) 2 "in/report.xlsx" "out" "markdown" 2
        = ["out/report.md", "out/report_1.md"]
    ∧ (["out/report.md", "out/report_1.md"] : List String).Nodup
    ∧ (∃ n, n ≤ 2
        ∧ create_output_path (fun p => p == "out/report.md") 2 "in/report.xlsx" "out" "markdown"
            = outputCandidate "out" (pathStem "in/report.xlsx") (formatExtension "markdown") n
        ∧ (fun p => p == "out/report.md")
            (outputCandidate "out" (pathStem "in/report.xlsx") (formatExtension "markdown") n)
            = false) := by
  have h1 := create_output_path_spec (fun _ => false) 2 "in/report.xlsx" "out" "markdown"
  have h2 := create_output_path_spec (fun p => p == "out/report.md") 2
    "in/report.xlsx" "out" "markdown"
  have hm := (h1.2.2.2 2 (fun n => rfl) (by decide) (by decide))
  refine ⟨?_, ?_, ?_, by decide, ?_⟩
  · exact (create_output_path_spec (fun _ => false) 2 "x" "out" "docbook").1.2.2.2
      (by decide) (by decide) (by decide)
  · exact h1.2.2.1 rfl
  · rw [hm.1]; rfl
  · obtain ⟨n, hn, heq, hfree, _⟩ := h2.2.1 ⟨1, by decide, by decide⟩
    exact ⟨n, hn, heq, hfree⟩

/-- Counterexample to C9 as stated: discovery does not return exactly
the files with a supported extension.  A hidden file `.a.xlsx` has
`Path.suffix` `.xlsx` — a supported extension — yet `glob`'s wildcard
skips dotted names, so discovery misses it; and a *directory* named
`sub.xlsx` is returned, although it is not a file. -/
theorem find_files_misses_supported_file :
    find_files_in_directory ⟨true, [⟨[".a.xlsx"], true⟩]⟩ "docs" false = []
    ∧ pathSuffix ".a.xlsx" = ".xlsx"
    ∧ ".xlsx" ∈ CLIConfig.get_all_supported_extensions
    ∧ (FSEntry.mk [".a.xlsx"] true).isFile = true
    ∧ find_files_in_directory ⟨true, [⟨["sub.xlsx"], false⟩]⟩ "docs" false
        = ["docs/sub.xlsx"]
    ∧ (FSEntry.mk ["sub.xlsx"] false).isFile = false := by
  refine ⟨?_, by decide, by decide, rfl, ?_, rfl⟩ <;> rfl

/-- C9 (amended): discovery returns the empty sequence when the
directory is missing or not a directory; its output is sorted
lexicographically by full path (code-point order); and a path is
returned exactly when some entry beneath the directory — a file or a
directory, with non-hidden name, directly beneath it (or beneath
non-hidden subdirectories when `recursive`) — has a name ending,
case-sensitively, in one of the supported lower-case extensions. -/
theorem find_files_in_directory_spec (listing : DirectoryListing)
    (directory : String) (recursive : Bool) :
    (listing.dirOk = false →
      find_files_in_directory listing directory recursive = [])
    ∧ List.Sorted stringLe (find_files_in_directory listing directory recursive)
    ∧ (∀ p, p ∈ find_files_in_directory listing directory recursive ↔
        (listing.dirOk = true ∧ ∃ e, e ∈ listing.entries
          ∧ ∃ ext, ext ∈ CLIConfig.get_all_supported_extensions
            ∧ globMatch recursive ext e = true ∧ p = fullPath directory e)) := by
  refine ⟨?_, find_files_sorted listing directory recursive,
    fun p => mem_find_files listing directory recursive p⟩
  intro h
  unfold find_files_in_directory
  rw [if_pos h]

/-- Witness for C9 (amended): on a listing with one matching file and
one non-matching file, the returned path is characterized as the theorem
states, and a missing directory gives the empty sequence. -/
theorem find_files_in_directory_spec_witness :
    "docs/a.xlsx" ∈ find_files_in_directory ⟨true, [⟨["a.xlsx"], true⟩, ⟨["b.txt"], true⟩]⟩
        "docs" false
    ∧ find_files_in_directory ⟨false, [⟨["a.xlsx"], true⟩]⟩ "docs" false = [] := by
  constructor
  · exact ((find_files_in_directory_spec ⟨true, [⟨["a.xlsx"], true⟩, ⟨["b.txt"], true⟩]⟩
      "docs" false).2.2 "docs/a.xlsx").mpr
      ⟨rfl, ⟨["a.xlsx"], true⟩, by decide, ".xlsx", by decide, by decide, by decide⟩
  · exact (find_files_in_directory_spec ⟨false, [⟨["a.xlsx"], true⟩]⟩ "docs" false).1 rfl

/-- C10: discovery matches extensions case-sensitively while validation
and classification are case-insensitive.  (A) A file whose lower-cased
suffix is supported — e.g. `report.XLSX` — is accepted by
`validate_input_file` (under benign stat facts) and classified to a
concrete non-unknown type.  (B) An entry whose name's suffix is supported
only after lower-casing (it carries an upper-case letter) matches none of
the glob patterns, so `find_files_in_directory` excludes it.  (C) Under a
well-formed listing (nonempty slash-free components), every path that
discovery does return ends in a lower-case supported extension and
classifies to a non-unknown type. -/
theorem discovery_case_sensitive_classification_insensitive
    (listing : DirectoryListing) (directory : String) (recursive : Bool)
    (st : FileStat) (p : String) :
    (strLower (pathSuffix p) ∈ CLIConfig.get_all_supported_extensions →
      st.pathExists = true → st.isFile = true →
      st.sizeBytes ≤ CLIConfig.MAX_FILE_SIZE_MB * 1024 * 1024 →
      validate_input_file st p = (true, "")
      ∧ CLIConfig.detect_document_type p ≠ "unknown")
    ∧ (∀ e : FSEntry, ∀ name revDirs, e.parts.reverse = name :: revDirs →
        strLower (String.mk (nameSuffixChars name.data))
            ∈ CLIConfig.get_all_supported_extensions →
        String.mk (nameSuffixChars name.data) ∉ CLIConfig.get_all_supported_extensions →
        ∀ ext ∈ CLIConfig.get_all_supported_extensions,
          globMatch recursive ext e = false)
    ∧ ((∀ e ∈ listing.entries, ∀ part ∈ e.parts, part ≠ "" ∧ '/' ∉ part.data) →
        ∀ q ∈ find_files_in_directory listing directory recursive,
          ∃ ext, ext ∈ CLIConfig.get_all_supported_extensions
            ∧ ext.data.isSuffixOf q.data = true
            ∧ CLIConfig.detect_document_type q ≠ "unknown") := by
  refine ⟨?_, ?_, ?_⟩
  · -- (A) validation and classification accept case-insensitively
    intro h hex hfil hsize
    have hsup : CLIConfig.is_supported_file p = true := by
      unfold CLIConfig.is_supported_file
      exact decide_eq_true h
    refine ⟨?_, detect_ne_unknown_of_supported p h⟩
    unfold validate_input_file
    rw [if_neg (by rw [hex]; simp), if_neg (by rw [hfil]; simp),
      if_neg (by omega), if_neg (by rw [hsup]; simp)]
  · -- (B) upper-case suffixes match no glob pattern
    intro e name revDirs hrev hlow hup ext hext
    unfold globMatch
    rw [hrev]
    cases hhid : isHidden name.data with
    | true => simp [hhid]
    | false =>
      cases hsuf : ext.data.isSuffixOf name.data with
      | false => simp [hsuf]
      | true =>
        exfalso
        have := nameSuffixChars_of_supported ext hext name.data hsuf hhid
        rw [this] at hup
        exact hup hext
  · -- (C) discovered paths end in a lower-case supported extension
    intro hwf q hq
    obtain ⟨hok, e, he, ext, hext, hglob, rfl⟩ :=
      (mem_find_files listing directory recursive q).mp hq
    cases hrev : e.parts.reverse with
    | nil =>
      exfalso
      unfold globMatch at hglob
      rw [hrev] at hglob
      cases hglob
    | cons name revDirs =>
      have hglob' : (ext.data.isSuffixOf name.data && !(isHidden name.data)
          && (if recursive then revDirs.all (fun d => !(isHidden d.data))
              else revDirs.isEmpty)) = true := by
        have h0 := hglob
        unfold globMatch at h0
        rw [hrev] at h0
        exact h0
      simp only [Bool.and_eq_true] at hglob'
      obtain ⟨⟨hsuf, hhidb⟩, _⟩ := hglob'
      have hhid : isHidden name.data = false := by
        cases h : isHidden name.data
        · rfl
        · rw [h] at hhidb; cases hhidb
      have hparts : e.parts = revDirs.reverse ++ [name] := by
        have h0 := congrArg List.reverse hrev
        rw [List.reverse_reverse] at h0
        rw [h0, List.reverse_cons]
      have hnamemem : name ∈ e.parts := by
        rw [hparts]
        exact List.mem_append_right _ (List.mem_cons_self name [])
      obtain ⟨hnne, hnslash⟩ := hwf e he name hnamemem
      have hnne' : name.data ≠ [] := by
        intro h
        apply hnne
        cases name
        simp at h
        rw [h]
      obtain ⟨d, hd⟩ := fullPath_data directory e revDirs.reverse name hparts
      have hlast : lastNameChars (fullPath directory e).data = name.data := by
        rw [hd]
        exact lastNameChars_append d name.data hnne' hnslash
      have hsfx : pathSuffix (fullPath directory e) = ext := by
        unfold pathSuffix
        rw [hlast, nameSuffixChars_of_supported ext hext name.data hsuf hhid]
      refine ⟨ext, hext, ?_, ?_⟩
      · rw [List.isSuffixOf_iff_suffix] at hsuf ⊢
        obtain ⟨pre, hpre⟩ := hsuf
        refine ⟨d ++ '/' :: pre, ?_⟩
        rw [hd, ← hpre]
        simp
      · apply detect_ne_unknown_of_supported
        rw [hsfx, strLower_supported ext hext]
        exact hext

/-- Witness for C10: `report.XLSX` is accepted by validation and
classified as excel, yet the corresponding directory entry matches no
glob pattern; and a discovered `docs/a.xlsx` ends in `.xlsx` and
classifies as non-unknown. -/
theorem discovery_case_sensitive_classification_insensitive_witness :
    (validate_input_file ⟨true, true, 0⟩ "report.XLSX" = (true, "")
      ∧ CLIConfig.detect_document_type "report.XLSX" ≠ "unknown")
    ∧ globMatch false ".xlsx" ⟨["report.XLSX"], true⟩ = false
    ∧ ∃ ext, ext ∈ CLIConfig.get_all_supported_extensions
        ∧ ext.data.isSuffixOf "docs/a.xlsx".data = true
        ∧ CLIConfig.detect_document_type "docs/a.xlsx" ≠ "unknown" := by
  have h := discovery_case_sensitive_classification_insensitive
    ⟨true, [⟨["a.xlsx"], true⟩]⟩ "docs" false ⟨true, true, 0⟩ "report.XLSX"
  refine ⟨h.1 (by decide) rfl rfl (by decide), ?_, ?_⟩
  · exact h.2.1 ⟨["report.XLSX"], true⟩ "report.XLSX" [] rfl (by decide) (by decide)
      ".xlsx" (by decide)
  · exact h.2.2 (by decide) "docs/a.xlsx" (by decide)

end DoclingCLI
